import Mathlib

/-!
# apicompat: revision cache and tag selection of `vcs.go`

A shallow embedding of `src/vcs.go`.  The `VCS` struct wraps a client of type
`vcs.Repo` (an interface of `github.com/Masterminds/vcs`) and one mutable
field, `cachedVersion`.  The client and the file system are outside the file:
they are a record of transition functions over a state `σ` of the outside
world, and every method threads that state explicitly.
-/

namespace Apicompat

/-- Go `error` values, identified with their message. -/
abbrev Error := String

/-- Entries of `[]os.FileInfo`, identified with the entry's name. -/
abbrev FileInfo := String

/-- The `io.ReadCloser` that `os.Open` hands back, identified with what can be
read from it. -/
abbrev File := String

/-- The constant `revisionFileSystem` (vcs.go:15). -/
def revisionFileSystem : String := "."

/-- One call that `vcs.go` makes on the world outside the `VCS` struct: a
method of the embedded `vcs.Repo`, or a read of the file system. -/
inductive Call where
  | Version
  | UpdateVersion (ver : String)
  | Tags
  | ReadDir (path : String)
  | Open (path : String)
deriving DecidableEq, Repr

/-- The methods of `vcs.Repo` and the file-system functions that `vcs.go`
calls, over a state `σ` of the client, its working copy and the disk.  A Go
result `(x, err)` is an `Except`; a lone `error` result is an `Option`, `none`
being `nil`. -/
structure Env (σ : Type) where
  Version : σ → Except Error String × σ
  UpdateVersion : σ → String → Option Error × σ
  Tags : σ → Except Error (List String) × σ
  ReadDir : σ → String → Except Error (List FileInfo) × σ
  Open : σ → String → Except Error File × σ

/-- The struct `VCS` (vcs.go:17-20).  `Repo` is the state behind the embedded
client; `calls` is a ghost field, the calls made on the outside world so far,
oldest first. -/
structure VCS (σ : Type) where
  Repo : σ
  cachedVersion : String
  calls : List Call

/-- The value `&VCS{Repo: repo}` that both constructors return
(vcs.go:33-35, 57-59): the cache holds the zero value of `string`. -/
def VCS.fresh {σ : Type} (repo : σ) : VCS σ :=
  { Repo := repo, cachedVersion := "", calls := [] }

/-- The method `ensureVersion` (vcs.go:109-125). -/
def ensureVersion {σ : Type} (env : Env σ) (v : VCS σ) (ver : String) :
    Option Error × VCS σ :=
  if v.cachedVersion = ver then
    (none, v)
  else
    let q := env.Version v.Repo
    let v1 : VCS σ := { v with Repo := q.2, calls := v.calls ++ [Call.Version] }
    match q.1 with
    | Except.error err => (some err, v1)
    | Except.ok repoVer =>
      if repoVer ≠ ver then
        let u := env.UpdateVersion v1.Repo ver
        let v2 : VCS σ :=
          { v1 with Repo := u.2, calls := v1.calls ++ [Call.UpdateVersion ver] }
        match u.1 with
        | some err => (some err, v2)
        | none => (none, { v2 with cachedVersion := repoVer })
      else
        (none, { v1 with cachedVersion := repoVer })

/-- The method `ReadDir` (vcs.go:62-67). -/
def ReadDir {σ : Type} (env : Env σ) (v : VCS σ) (revision path : String) :
    Except Error (List FileInfo) × VCS σ :=
  let e := ensureVersion env v revision
  match e.1 with
  | some err => (Except.error err, e.2)
  | none =>
    let r := env.ReadDir e.2.Repo path
    (r.1, { e.2 with Repo := r.2, calls := e.2.calls ++ [Call.ReadDir path] })

/-- The method `OpenFile` (vcs.go:69-74). -/
def OpenFile {σ : Type} (env : Env σ) (v : VCS σ) (revision path : String) :
    Except Error File × VCS σ :=
  let e := ensureVersion env v revision
  match e.1 with
  | some err => (Except.error err, e.2)
  | none =>
    let r := env.Open e.2.Repo path
    (r.1, { e.2 with Repo := r.2, calls := e.2.calls ++ [Call.Open path] })

/-- Running `ensureVersion` for each revision of a list in turn, whatever each
call returns. -/
def ensureAll {σ : Type} (env : Env σ) (v : VCS σ) : List String → VCS σ
  | [] => v
  | r :: rs => ensureAll env (ensureVersion env v r).2 rs

/-- Whether a call is a checkout, `UpdateVersion`. -/
def Call.isUpdate : Call → Bool
  | Call.UpdateVersion _ => true
  | _ => false

/-- Whether a call is a version query, `Version`. -/
def Call.isVersion : Call → Bool
  | Call.Version => true
  | _ => false

/-- The number of `UpdateVersion` calls in a log. -/
def updateCalls (l : List Call) : Nat := l.countP Call.isUpdate

/-- A well-behaved client, observed through `cur`, the revision its working
copy is at: `Version()` never fails, reports that revision and does not move
the working copy; `UpdateVersion(r)` succeeds and moves it to `r`. -/
structure WellBehaved {σ : Type} (env : Env σ) (cur : σ → String) : Prop where
  version_reports : ∀ s, (env.Version s).1 = Except.ok (cur s)
  version_keeps : ∀ s, cur (env.Version s).2 = cur s
  update_succeeds : ∀ s r, (env.UpdateVersion s r).1 = none
  update_moves : ∀ s r, cur (env.UpdateVersion s r).2 = r

/-- State of the test clients: the checked-out revision and the tag list. -/
structure Checkout where
  current : String
  tags : List String
deriving DecidableEq, Repr

/-- A well-behaved test client: every call succeeds, `UpdateVersion(r)` moves
the working copy to `r`, a file read yields the revision and the path. -/
def simpleRepo : Env Checkout where
  Version s := (Except.ok s.current, s)
  UpdateVersion s r := (none, { s with current := r })
  Tags s := (Except.ok s.tags, s)
  ReadDir s path := (Except.ok [s.current ++ ":" ++ path], s)
  Open s path := (Except.ok (s.current ++ ":" ++ path), s)

/-- A test client whose checkout always fails and leaves the working copy
where it was. -/
def stuckRepo : Env Checkout :=
  { simpleRepo with UpdateVersion := fun s _ => (some "checkout failed", s) }

/-- A test client whose version query always fails. -/
def muteRepo : Env Checkout :=
  { simpleRepo with Version := fun s => (Except.error "version query failed", s) }

/-- A test client that resolves names: `UpdateVersion(r)` succeeds and
`Version()` then reports the commit id `"commit-" ++ r`, as a client does that
answers with commit ids when asked for the current version. -/
def resolvingRepo : Env Checkout :=
  { simpleRepo with UpdateVersion := fun s r => (none, { s with current := "commit-" ++ r }) }

/-- A test client whose checkout can fail: while the working copy is `locked`,
`UpdateVersion` fails and leaves it there; otherwise it moves the working
copy as `simpleRepo` does. -/
def flakyRepo : Env Checkout :=
  { simpleRepo with
    UpdateVersion := fun s r =>
      if s.current = "locked" then (some "working copy is locked", s)
      else (none, { s with current := r }) }

/-! ## The imported packages `semver` and `sort`

`vcs.go` imports `github.com/Masterminds/semver` and the standard `sort`; neither
is part of the repository.  The parser and the precedence below follow what the
specification says of them; the sorting function is a parameter of
`latestSemVerTag`, with its contract stated as `SortsPerm` and `SortsAscending`.
-/

/-- Modelled from the spec: the type `semver.Version` of the imported package,
with the fields of a semantic version (major.minor.patch, pre-release, build
metadata).  `original` is the string the version was parsed from, the
"original (unnormalized) string form" that `Original()` returns. -/
structure Version where
  major : Nat
  minor : Nat
  patch : Nat
  pre : String
  metadata : String
  original : String
deriving DecidableEq, Repr

/-- Modelled from the spec: part of `semver.NewVersion`.  A character of a
pre-release or build identifier: `[0-9A-Za-z-]`. -/
def isIdentChar (c : Char) : Bool := c.isAlphanum || c = '-'

/-- Modelled from the spec: part of `semver.NewVersion`.  Whether a string is
one or more non-empty identifiers separated by dots; `seen` tells whether the
current identifier already has a character. -/
def isDotted (seen : Bool) : List Char → Bool
  | [] => seen
  | c :: cs =>
    if c = '.' then seen && isDotted false cs
    else isIdentChar c && isDotted true cs

/-- Modelled from the spec: part of `semver.NewVersion`.  The number a string
of decimal digits denotes. -/
def digitsValue (ds : List Char) : Nat :=
  ds.foldl (fun n c => 10 * n + (c.toNat - '0'.toNat)) 0

/-- Modelled from the spec: part of `semver.NewVersion`.  A numeric segment
as a signed 64-bit integer; out of range is an error.  The empty string
stands for an absent segment, which counts as 0. -/
def parseSegment (ds : List Char) : Option Nat :=
  if digitsValue ds < 2 ^ 63 then some (digitsValue ds) else none

/-- Modelled from the spec: part of `semver.NewVersion`.  An optional `.`
followed by digits: the digits (empty when absent) and the rest of the
input. -/
def optSegment (cs : List Char) : List Char × List Char :=
  match cs with
  | '.' :: r =>
    let p := r.span Char.isDigit
    if p.1.isEmpty then ([], cs) else p
  | _ => ([], cs)

/-- Modelled from the spec: part of `semver.NewVersion`.  An optional `-`
followed by dotted identifiers: the pre-release (empty when absent) and the
rest of the input; `none` when a `-` is not followed by dotted identifiers. -/
def optPre (cs : List Char) : Option (List Char × List Char) :=
  match cs with
  | '-' :: r =>
    let p := r.span (fun c => isIdentChar c || c = '.')
    if isDotted false p.1 then some p else none
  | _ => some ([], cs)

/-- Modelled from the spec: part of `semver.NewVersion`.  An optional `+`
followed by dotted identifiers, up to the end of the input: the build
metadata (empty when absent). -/
def optMeta (cs : List Char) : Option (List Char) :=
  match cs with
  | [] => some []
  | '+' :: r => if isDotted false r then some r else none
  | _ => none

/-- Modelled from the spec: `semver.NewVersion`, of the imported package
`github.com/Masterminds/semver`, whose source is not in the repository.  The
spec has a tag "optionally parsable as a semantic version (major.minor.patch
plus optional pre-release/build metadata)", with `v1.0.0` and `1.0.0` parsable
and `foo`, `not-a-version`, `v`, `garbage` not.  The grammar taken here is the
package's: an optional `v`, one to three dot-separated numbers, an optional
`-` pre-release and an optional `+` build metadata, the whole string matched.
The version keeps the string it was parsed from. -/
def NewVersion (v : String) : Option Version :=
  let cs := match v.toList with
    | 'v' :: r => r
    | r => r
  let m1 := cs.span Char.isDigit
  if m1.1.isEmpty then none
  else
    let m2 := optSegment m1.2
    let m3 := optSegment m2.2
    match optPre m3.2 with
    | none => none
    | some m5 =>
      match optMeta m5.2 with
      | none => none
      | some m8 =>
        match parseSegment m1.1, parseSegment m2.1, parseSegment m3.1 with
        | some major, some minor, some patch =>
          some { major := major, minor := minor, patch := patch,
                 pre := String.mk m5.1, metadata := String.mk m8, original := v }
        | _, _, _ => none

/-- Modelled from the spec: the method `Original` of `semver.Version`, "the
original (unnormalized) string form". -/
def Version.Original (v : Version) : String := v.original

/-- Modelled from the spec: part of `Version.Compare`.  Three-way comparison
of two numbers: `-1`, `0` or `1`. -/
def compareNat (a b : Nat) : Int :=
  if a < b then -1 else if b < a then 1 else 0

/-- Modelled from the spec: part of `Version.Compare`.  Three-way
lexicographic comparison of two lists by a three-way comparison of their
elements: the first differing element decides, and a proper prefix is
lower. -/
def compareLex {α : Type} (cmp : α → α → Int) : List α → List α → Int
  | [], [] => 0
  | [], _ :: _ => -1
  | _ :: _, [] => 1
  | a :: as, b :: bs =>
    if cmp a b ≠ 0 then cmp a b else compareLex cmp as bs

/-- Modelled from the spec: part of `Version.Compare`.  Three-way comparison
of two characters by their code. -/
def compareChar (a b : Char) : Int := compareNat a.toNat b.toNat

/-- Modelled from the spec: part of `Version.Compare`.  Three-way lexical
comparison of two strings in ASCII order. -/
def compareChars (s o : List Char) : Int := compareLex compareChar s o

/-- Modelled from the spec: part of `Version.Compare`.  The dot-separated
identifiers of a pre-release string. -/
def splitDots : List Char → List (List Char)
  | [] => [[]]
  | c :: cs =>
    if c = '.' then [] :: splitDots cs
    else
      match splitDots cs with
      | [] => [[c]]
      | p :: ps => (c :: p) :: ps

/-- Modelled from the spec: part of `Version.Compare`.  Whether an identifier
consists of digits only. -/
def isNumeric (s : List Char) : Bool := !s.isEmpty && s.all Char.isDigit

/-- Modelled from the spec: part of `Version.Compare`.  Precedence of two
pre-release identifiers: numeric ones compare as numbers, others lexically,
and a numeric one is lower than a non-numeric. -/
def comparePrePart (s o : List Char) : Int :=
  if isNumeric s then
    if isNumeric o then compareNat (digitsValue s) (digitsValue o) else -1
  else if isNumeric o then 1
  else compareChars s o

/-- Modelled from the spec: part of `Version.Compare`.  Precedence of two
pre-releases given as identifier lists: the first differing identifier
decides, and a proper prefix is lower. -/
def comparePrerelease (s o : List (List Char)) : Int := compareLex comparePrePart s o

/-- Modelled from the spec: part of `Version.Compare`.  Precedence by the
pre-release strings of two versions otherwise equal: a version without a
pre-release is higher than one with a pre-release. -/
def comparePre (s o : String) : Int :=
  if s = "" ∧ o = "" then 0
  else if s = "" then 1
  else if o = "" then -1
  else comparePrerelease (splitDots s.toList) (splitDots o.toList)

/-- Modelled from the spec: `Version.Compare` of the imported package
`github.com/Masterminds/semver`.  The spec orders versions by "standard
semantic-version precedence (major, then minor, then patch, then pre-release
precedence rules)": a version with a pre-release is lower than the same
version without one, and build metadata is ignored.  The result is `-1`, `0`
or `1`. -/
def Version.Compare (v o : Version) : Int :=
  if compareNat v.major o.major ≠ 0 then compareNat v.major o.major
  else if compareNat v.minor o.minor ≠ 0 then compareNat v.minor o.minor
  else if compareNat v.patch o.patch ≠ 0 then compareNat v.patch o.patch
  else comparePre v.pre o.pre

/-- What makes a three-way comparison a precedence (a total preorder):
swapping the arguments negates the result, and "not higher" is transitive. -/
structure IsPrecedence {α : Type} (cmp : α → α → Int) : Prop where
  swap : ∀ a b, cmp b a = - cmp a b
  trans : ∀ a b c, cmp a b ≤ 0 → cmp b c ≤ 0 → cmp a c ≤ 0

/-- Modelled from the spec: the method `LessThan` of `semver.Version`, by
which `semver.Collection` is sorted: lower in precedence. -/
def Version.LessThan (v o : Version) : Bool := decide (v.Compare o < 0)

/-- Part of the contract of `sort.Sort`: the sorted slice holds the same
elements as the slice it was given. -/
def SortsPerm (sortFn : List Version → List Version) : Prop :=
  ∀ l, (sortFn l).Perm l

/-- Part of the contract of `sort.Sort` on a `semver.Collection`: in the
sorted slice no element is `LessThan` an element before it. -/
def SortsAscending (sortFn : List Version → List Version) : Prop :=
  ∀ l, (sortFn l).Pairwise (fun a b => b.LessThan a = false)

/-- A sorting function to run `latestSemVerTag` with: insertion sort by
precedence. -/
def sortCollection (l : List Version) : List Version :=
  l.insertionSort (fun a b => a.Compare b ≤ 0)

/-- What a call of a Go function with results `(x, error)` ends in: it returns
`x` with a nil error, returns an error, or panics at run time. -/
inductive Outcome (α : Type) where
  | ok (val : α)
  | error (err : Error)
  | panic
deriving DecidableEq, Repr

/-- The method `latestSemVerTag` (vcs.go:87-107).  `sortFn` is
`sort.Sort(semver.Collection(vs))`; indexing the empty slice with `vs[0]` is a
run-time panic. -/
def latestSemVerTag {σ : Type} (env : Env σ) (sortFn : List Version → List Version)
    (v : VCS σ) : Outcome String × VCS σ :=
  let q := env.Tags v.Repo
  let v1 : VCS σ := { v with Repo := q.2, calls := v.calls ++ [Call.Tags] }
  match q.1 with
  | Except.error err => (Outcome.error err, v1)
  | Except.ok tags =>
    if tags.length = 0 then
      (Outcome.error "0 tags detected", v1)
    else
      let vs := tags.filterMap NewVersion
      match sortFn vs with
      | [] => (Outcome.panic, v1)
      | x :: _ => (Outcome.ok x.Original, v1)

/-- The method `DefaultRevision` (vcs.go:76-85), with results
`(before, after)`. -/
def DefaultRevision {σ : Type} (env : Env σ) (sortFn : List Version → List Version)
    (v : VCS σ) : Outcome (String × String) × VCS σ :=
  let r := latestSemVerTag env sortFn v
  match r.1 with
  | Outcome.error err => (Outcome.error err, r.2)
  | Outcome.panic => (Outcome.panic, r.2)
  | Outcome.ok before => (Outcome.ok (before, revisionFileSystem), r.2)

/-- Whether a call is a read of the file system, `ioutil.ReadDir` or
`os.Open`. -/
def Call.isRead : Call → Bool
  | Call.ReadDir _ => true
  | Call.Open _ => true
  | _ => false

/-- The number of file-system reads in a log. -/
def readCalls (l : List Call) : Nat := l.countP Call.isRead

/-- Modelled from the spec: a path "resolved relative to the repository's
local root": the root, a separator, and the caller's path, as `filepath.Join`
gives for a clean relative path. -/
def joinPath (root path : String) : String := root ++ "/" ++ path

/-- State of a test client that records where its working copy is: the local
path the repository was created with, and the checkout. -/
structure Clone where
  LocalPath : String
  checkout : Checkout
deriving DecidableEq, Repr

/-- A well-behaved test client with a local path; it answers as `simpleRepo`
does. -/
def cloneRepo : Env Clone where
  Version s := (Except.ok s.checkout.current, s)
  UpdateVersion s r := (none, { s with checkout := { s.checkout with current := r } })
  Tags s := (Except.ok s.checkout.tags, s)
  ReadDir s path := (Except.ok [s.checkout.current ++ ":" ++ path], s)
  Open s path := (Except.ok (s.checkout.current ++ ":" ++ path), s)

/-- A test client whose tag query always fails. -/
def taglessRepo : Env Checkout :=
  { simpleRepo with Tags := fun s => (Except.error "tag query failed", s) }

/-! ## Lemmas on `ensureVersion`, one for each path through it -/

theorem ensureVersion_hit {σ : Type} (env : Env σ) (v : VCS σ) (ver : String)
    (h : v.cachedVersion = ver) : ensureVersion env v ver = (none, v) := by
  simp [ensureVersion, h]

theorem ensureVersion_query_error {σ : Type} (env : Env σ) (v : VCS σ) (ver : String)
    (err : Error) (h : v.cachedVersion ≠ ver)
    (hq : (env.Version v.Repo).1 = Except.error err) :
    ensureVersion env v ver =
      (some err, { v with Repo := (env.Version v.Repo).2, calls := v.calls ++ [Call.Version] }) := by
  simp [ensureVersion, h, hq]

theorem ensureVersion_confirm {σ : Type} (env : Env σ) (v : VCS σ) (ver : String)
    (h : v.cachedVersion ≠ ver) (hq : (env.Version v.Repo).1 = Except.ok ver) :
    ensureVersion env v ver =
      (none, { Repo := (env.Version v.Repo).2, cachedVersion := ver,
               calls := v.calls ++ [Call.Version] }) := by
  simp [ensureVersion, h, hq]

theorem ensureVersion_checkout_error {σ : Type} (env : Env σ) (v : VCS σ)
    (ver repoVer : String) (err : Error) (h : v.cachedVersion ≠ ver)
    (hq : (env.Version v.Repo).1 = Except.ok repoVer) (hne : repoVer ≠ ver)
    (hu : (env.UpdateVersion (env.Version v.Repo).2 ver).1 = some err) :
    ensureVersion env v ver =
      (some err, { Repo := (env.UpdateVersion (env.Version v.Repo).2 ver).2,
                   cachedVersion := v.cachedVersion,
                   calls := v.calls ++ [Call.Version] ++ [Call.UpdateVersion ver] }) := by
  simp [ensureVersion, h, hq, hne, hu]

theorem ensureVersion_checkout_ok {σ : Type} (env : Env σ) (v : VCS σ)
    (ver repoVer : String) (h : v.cachedVersion ≠ ver)
    (hq : (env.Version v.Repo).1 = Except.ok repoVer) (hne : repoVer ≠ ver)
    (hu : (env.UpdateVersion (env.Version v.Repo).2 ver).1 = none) :
    ensureVersion env v ver =
      (none, { Repo := (env.UpdateVersion (env.Version v.Repo).2 ver).2,
               cachedVersion := repoVer,
               calls := v.calls ++ [Call.Version] ++ [Call.UpdateVersion ver] }) := by
  simp [ensureVersion, h, hq, hne, hu]

theorem updateCalls_append (l m : List Call) :
    updateCalls (l ++ m) = updateCalls l + updateCalls m := by
  simp [updateCalls]

theorem simpleRepo_wellBehaved : WellBehaved simpleRepo Checkout.current where
  version_reports _ := rfl
  version_keeps _ := rfl
  update_succeeds _ _ := rfl
  update_moves _ _ := rfl

/-- Any call of `ensureVersion` adds at most one checkout to the log. -/
theorem ensureVersion_calls {σ : Type} (env : Env σ) (v : VCS σ) (ver : String) :
    ∃ l, (ensureVersion env v ver).2.calls = v.calls ++ l ∧ updateCalls l ≤ 1 := by
  by_cases hc : v.cachedVersion = ver
  · exact ⟨[], by rw [ensureVersion_hit env v ver hc]; simp, by decide⟩
  · cases hq : (env.Version v.Repo).1 with
    | error e =>
      exact ⟨[Call.Version], by rw [ensureVersion_query_error env v ver e hc hq], by decide⟩
    | ok r =>
      by_cases hne : r = ver
      · subst hne
        exact ⟨[Call.Version], by rw [ensureVersion_confirm env v r hc hq], by decide⟩
      · cases hu : (env.UpdateVersion (env.Version v.Repo).2 ver).1 with
        | some e =>
          refine ⟨[Call.Version, Call.UpdateVersion ver], ?_, by simp [updateCalls, Call.isUpdate]⟩
          rw [ensureVersion_checkout_error env v ver r e hc hq hne hu]
          simp
        | none =>
          refine ⟨[Call.Version, Call.UpdateVersion ver], ?_, by simp [updateCalls, Call.isUpdate]⟩
          rw [ensureVersion_checkout_ok env v ver r hc hq hne hu]
          simp

/-- When `ensureVersion` makes a checkout, whether that succeeds or fails, it
has logged the version query and the checkout, the client is in the state the
checkout left, and the cache still differs from the requested revision. -/
theorem ensureVersion_checkout_calls {σ : Type} (env : Env σ) (v : VCS σ)
    (ver repoVer : String) (h : v.cachedVersion ≠ ver)
    (hq : (env.Version v.Repo).1 = Except.ok repoVer) (hne : repoVer ≠ ver) :
    (ensureVersion env v ver).2.calls = v.calls ++ [Call.Version, Call.UpdateVersion ver] ∧
    (ensureVersion env v ver).2.Repo = (env.UpdateVersion (env.Version v.Repo).2 ver).2 ∧
    (ensureVersion env v ver).2.cachedVersion ≠ ver := by
  cases hu : (env.UpdateVersion (env.Version v.Repo).2 ver).1 with
  | some e =>
    rw [ensureVersion_checkout_error env v ver repoVer e h hq hne hu]
    exact ⟨by simp, rfl, h⟩
  | none =>
    rw [ensureVersion_checkout_ok env v ver repoVer h hq hne hu]
    exact ⟨by simp, rfl, hne⟩

/-- When `ensureVersion` finds the cache different and the version query
fails or reports the requested revision, it logs the version query alone. -/
theorem ensureVersion_query_calls {σ : Type} (env : Env σ) (v : VCS σ) (ver : String)
    (h : v.cachedVersion ≠ ver)
    (hq : ∀ y, (env.Version v.Repo).1 = Except.ok y → y = ver) :
    (ensureVersion env v ver).2.calls = v.calls ++ [Call.Version] := by
  cases hv : (env.Version v.Repo).1 with
  | error e => rw [ensureVersion_query_error env v ver e h hv]
  | ok y =>
    have hy : y = ver := hq y hv
    subst hy
    rw [ensureVersion_confirm env v y h hv]

/-! ## The precedence of versions is a total preorder -/

theorem IsPrecedence.lex_step {α : Type} {cmp : α → α → Int} (h : IsPrecedence cmp)
    (a b c : α) (x y z : Int) (hxyz : x ≤ 0 → y ≤ 0 → z ≤ 0)
    (hab : (if cmp a b ≠ 0 then cmp a b else x) ≤ 0)
    (hbc : (if cmp b c ≠ 0 then cmp b c else y) ≤ 0) :
    (if cmp a c ≠ 0 then cmp a c else z) ≤ 0 := by
  have s1 := h.swap a b
  have s2 := h.swap b c
  have s3 := h.swap a c
  have t1 := h.trans a b c
  have t2 := h.trans c a b
  have t3 := h.trans b c a
  have t4 := h.trans c b a
  split_ifs at hab hbc ⊢ <;> omega

theorem IsPrecedence.refl {α : Type} {cmp : α → α → Int} (h : IsPrecedence cmp) (a : α) :
    cmp a a = 0 := by
  have s := h.swap a a
  omega

theorem compareNat_isPrecedence : IsPrecedence compareNat where
  swap a b := by unfold compareNat; split_ifs <;> omega
  trans a b c := by unfold compareNat; split_ifs <;> omega

theorem IsPrecedence.comap {α β : Type} {cmp : α → α → Int} (h : IsPrecedence cmp)
    (f : β → α) : IsPrecedence (fun a b => cmp (f a) (f b)) where
  swap a b := h.swap (f a) (f b)
  trans a b c := h.trans (f a) (f b) (f c)

theorem IsPrecedence.lex {α : Type} {c1 c2 : α → α → Int} (h1 : IsPrecedence c1)
    (h2 : IsPrecedence c2) :
    IsPrecedence (fun a b => if c1 a b ≠ 0 then c1 a b else c2 a b) where
  swap a b := by
    have s1 := h1.swap a b
    have s2 := h2.swap a b
    show (if c1 b a ≠ 0 then c1 b a else c2 b a) = -(if c1 a b ≠ 0 then c1 a b else c2 a b)
    split_ifs <;> omega
  trans a b c := h1.lex_step a b c _ _ _ (h2.trans a b c)

theorem compareLex_swap {α : Type} {cmp : α → α → Int} (h : IsPrecedence cmp) :
    ∀ l m : List α, compareLex cmp m l = - compareLex cmp l m
  | [], [] => rfl
  | [], _ :: _ => rfl
  | _ :: _, [] => rfl
  | a :: as, b :: bs => by
    have s1 := h.swap a b
    have ih := compareLex_swap h as bs
    simp only [compareLex]
    split_ifs <;> omega

theorem compareLex_trans {α : Type} {cmp : α → α → Int} (h : IsPrecedence cmp) :
    ∀ l m n : List α, compareLex cmp l m ≤ 0 → compareLex cmp m n ≤ 0 →
      compareLex cmp l n ≤ 0
  | [], _, [] => fun _ _ => by simp [compareLex]
  | [], _, _ :: _ => fun _ _ => by simp [compareLex]
  | _ :: _, [], _ => fun h1 _ => by simp [compareLex] at h1
  | _ :: _, _ :: _, [] => fun _ h2 => by simp [compareLex] at h2
  | a :: as, b :: bs, c :: cs => by
    simp only [compareLex]
    exact h.lex_step a b c _ _ _ (compareLex_trans h as bs cs)

theorem IsPrecedence.compareLex {α : Type} {cmp : α → α → Int} (h : IsPrecedence cmp) :
    IsPrecedence (compareLex cmp) where
  swap l m := compareLex_swap h l m
  trans := compareLex_trans h

theorem compareChars_isPrecedence : IsPrecedence compareChars :=
  (compareNat_isPrecedence.comap Char.toNat).compareLex

theorem comparePrePart_isPrecedence : IsPrecedence comparePrePart where
  swap s o := by
    have h1 := compareNat_isPrecedence.swap (digitsValue s) (digitsValue o)
    have h2 := compareChars_isPrecedence.swap s o
    unfold comparePrePart
    split_ifs <;> omega
  trans a b c := by
    have h1 := compareNat_isPrecedence.trans (digitsValue a) (digitsValue b) (digitsValue c)
    have h2 := compareChars_isPrecedence.trans a b c
    unfold comparePrePart
    split_ifs <;> omega

theorem comparePre_isPrecedence : IsPrecedence comparePre where
  swap s o := by
    have h := comparePrePart_isPrecedence.compareLex.swap
      (splitDots s.toList) (splitDots o.toList)
    unfold comparePre comparePrerelease
    split_ifs <;> simp_all
  trans a b c := by
    have h := comparePrePart_isPrecedence.compareLex.trans
      (splitDots a.toList) (splitDots b.toList) (splitDots c.toList)
    unfold comparePre comparePrerelease
    split_ifs <;> simp_all

/-- The comparison of versions is a precedence: a total preorder. -/
theorem Compare_isPrecedence : IsPrecedence Version.Compare :=
  (compareNat_isPrecedence.comap Version.major).lex
    ((compareNat_isPrecedence.comap Version.minor).lex
      ((compareNat_isPrecedence.comap Version.patch).lex
        (comparePre_isPrecedence.comap Version.pre)))

/-- A version that is not higher than another is not preceded by it. -/
theorem LessThan_eq_false_of_Compare_le (a b : Version) (h : a.Compare b ≤ 0) :
    b.LessThan a = false := by
  have s := Compare_isPrecedence.swap a b
  unfold Version.LessThan
  rw [decide_eq_false_iff_not]
  omega

theorem sortCollection_ascending : SortsAscending sortCollection := by
  intro l
  haveI : IsTotal Version (fun a b => a.Compare b ≤ 0) :=
    ⟨fun a b => by
      have s := Compare_isPrecedence.swap a b
      show a.Compare b ≤ 0 ∨ b.Compare a ≤ 0
      omega⟩
  haveI : IsTrans Version (fun a b => a.Compare b ≤ 0) :=
    ⟨fun a b c => Compare_isPrecedence.trans a b c⟩
  have hsorted : (sortCollection l).Pairwise (fun a b => a.Compare b ≤ 0) :=
    List.sorted_insertionSort (fun a b : Version => a.Compare b ≤ 0) l
  exact hsorted.imp (fun {a b} h => LessThan_eq_false_of_Compare_le a b h)

/-- The head of a sorted slice is preceded by no element of the slice that
was sorted. -/
theorem head_not_preceded {sortFn : List Version → List Version} (hp : SortsPerm sortFn)
    (ha : SortsAscending sortFn) (vs : List Version) (x : Version) (xs : List Version)
    (hx : sortFn vs = x :: xs) : ∀ y ∈ vs, y.LessThan x = false := by
  intro y hy
  have hmem : y ∈ x :: xs := by
    rw [← hx]
    exact (hp vs).mem_iff.mpr hy
  have hpw : (x :: xs).Pairwise (fun a b => b.LessThan a = false) := by
    rw [← hx]
    exact ha vs
  rcases List.mem_cons.mp hmem with h | h
  · rw [h]
    exact LessThan_eq_false_of_Compare_le x x (le_of_eq (Compare_isPrecedence.refl x))
  · exact List.rel_of_pairwise_cons hpw h

/-! ## Lemmas on tag selection -/

/-- A parsed version keeps the string it was parsed from. -/
theorem NewVersion_original (t : String) (x : Version) (h : NewVersion t = some x) :
    x.Original = t := by
  unfold NewVersion at h
  simp only at h
  split at h
  · exact absurd h (by simp)
  · split at h
    · exact absurd h (by simp)
    · split at h
      · exact absurd h (by simp)
      · split at h
        · injection h with h
          rw [← h]
          rfl
        · exact absurd h (by simp)

/-- A permuting sort leaves the empty slice empty. -/
theorem SortsPerm.nil {sortFn : List Version → List Version} (hs : SortsPerm sortFn) :
    sortFn [] = [] :=
  List.Perm.eq_nil (hs [])

theorem sortCollection_perm : SortsPerm sortCollection :=
  fun l => List.perm_insertionSort _ l

/-- With the tag list at hand, `latestSemVerTag` returns the original string
of the head of the sorted parsed versions, and panics when there is none. -/
theorem latestSemVerTag_of_tags {σ : Type} (env : Env σ)
    (sortFn : List Version → List Version) (v : VCS σ) (tags : List String)
    (ht : (env.Tags v.Repo).1 = Except.ok tags) (hne : tags ≠ []) :
    (latestSemVerTag env sortFn v).1 =
      match sortFn (tags.filterMap NewVersion) with
      | [] => Outcome.panic
      | x :: _ => Outcome.ok x.Original := by
  have hlen : ¬ tags.length = 0 := by
    intro h
    exact hne (List.length_eq_zero.mp h)
  unfold latestSemVerTag
  simp only [ht, hlen, if_false]
  split <;> rfl

/-! ## The revision cache -/

/-- C1, evaluated on the code: against the well-behaved client `simpleRepo`
with the working copy at `b` and an empty cache, `ensureVersion("a")` succeeds
and then `ensureVersion("b")` succeeds as well, on the cache alone, while the
working copy is at `a`: the read that follows sees `a`, not `b`. -/
theorem ensureVersion_succeeds_on_stale_cache :
    WellBehaved simpleRepo Checkout.current ∧
    (VCS.fresh (Checkout.mk "b" [])).cachedVersion = "" ∧
    (ensureVersion simpleRepo (VCS.fresh (Checkout.mk "b" [])) "a").1 = none ∧
    (ensureVersion simpleRepo
      (ensureVersion simpleRepo (VCS.fresh (Checkout.mk "b" [])) "a").2 "b").1 = none ∧
    (ensureVersion simpleRepo
      (ensureVersion simpleRepo (VCS.fresh (Checkout.mk "b" [])) "a").2 "b").2.Repo.current
        = "a" ∧
    (OpenFile simpleRepo
      (ensureVersion simpleRepo (VCS.fresh (Checkout.mk "b" [])) "a").2 "b" "f.go").1
        = Except.ok "a:f.go" :=
  ⟨simpleRepo_wellBehaved, by decide, by decide, by decide, by decide, rfl⟩

/-- C2, evaluated on the code: the state reached from a fresh `VCS` over the
well-behaved client `simpleRepo` at `b` by the single call
`ensureVersion("a")` has `cachedVersion = "b"`, which is neither empty nor
the revision `a` that the client has checked out. -/
theorem cache_invariant_broken_by_checkout :
    WellBehaved simpleRepo Checkout.current ∧
    (ensureAll simpleRepo (VCS.fresh (Checkout.mk "b" [])) ["a"]).cachedVersion = "b" ∧
    (ensureAll simpleRepo (VCS.fresh (Checkout.mk "b" [])) ["a"]).Repo.current = "a" ∧
    ¬ ((ensureAll simpleRepo (VCS.fresh (Checkout.mk "b" [])) ["a"]).cachedVersion = "" ∨
       (ensureAll simpleRepo (VCS.fresh (Checkout.mk "b" [])) ["a"]).cachedVersion =
         (ensureAll simpleRepo (VCS.fresh (Checkout.mk "b" [])) ["a"]).Repo.current) :=
  ⟨simpleRepo_wellBehaved, by decide, by decide, by decide⟩

/-- C6, evaluated on the code: with the client at `b`, `ensureVersion("a")`
queries the version, performs the checkout and succeeds; the client then
reports `a`, and `cachedVersion` is `b`, the version reported before the
checkout. -/
theorem ensureVersion_caches_version_before_checkout :
    (ensureVersion simpleRepo (VCS.fresh (Checkout.mk "b" [])) "a").1 = none ∧
    (ensureVersion simpleRepo (VCS.fresh (Checkout.mk "b" [])) "a").2.calls
      = [Call.Version, Call.UpdateVersion "a"] ∧
    (simpleRepo.Version (VCS.fresh (Checkout.mk "b" [])).Repo).1 = Except.ok "b" ∧
    (simpleRepo.Version
      (ensureVersion simpleRepo (VCS.fresh (Checkout.mk "b" [])) "a").2.Repo).1
        = Except.ok "a" ∧
    (ensureVersion simpleRepo (VCS.fresh (Checkout.mk "b" [])) "a").2.cachedVersion = "b" :=
  ⟨by decide, by decide, rfl, rfl, by decide⟩

/-- C9: `ensureVersion` is atomic on failure.  Whenever it returns an error
the cache is what it was before the call; when the version query it makes
fails it returns that error; when the checkout it makes fails it returns that
error. -/
theorem ensureVersion_atomic_on_failure {σ : Type} (env : Env σ) (v : VCS σ)
    (ver : String) :
    (∀ err, (ensureVersion env v ver).1 = some err →
      (ensureVersion env v ver).2.cachedVersion = v.cachedVersion) ∧
    (∀ err, v.cachedVersion ≠ ver → (env.Version v.Repo).1 = Except.error err →
      (ensureVersion env v ver).1 = some err ∧
      (ensureVersion env v ver).2.cachedVersion = v.cachedVersion) ∧
    (∀ repoVer err, v.cachedVersion ≠ ver → (env.Version v.Repo).1 = Except.ok repoVer →
      repoVer ≠ ver → (env.UpdateVersion (env.Version v.Repo).2 ver).1 = some err →
      (ensureVersion env v ver).1 = some err ∧
      (ensureVersion env v ver).2.cachedVersion = v.cachedVersion) := by
  refine ⟨?_, ?_, ?_⟩
  · intro err herr
    by_cases h : v.cachedVersion = ver
    · rw [ensureVersion_hit env v ver h]
    · cases hq : (env.Version v.Repo).1 with
      | error e => rw [ensureVersion_query_error env v ver e h hq]
      | ok repoVer =>
        by_cases hne : repoVer = ver
        · subst hne
          rw [ensureVersion_confirm env v repoVer h hq] at herr
          simp at herr
        · cases hu : (env.UpdateVersion (env.Version v.Repo).2 ver).1 with
          | some e => rw [ensureVersion_checkout_error env v ver repoVer e h hq hne hu]
          | none =>
            rw [ensureVersion_checkout_ok env v ver repoVer h hq hne hu] at herr
            simp at herr
  · intro err h hq
    rw [ensureVersion_query_error env v ver err h hq]
    exact ⟨rfl, rfl⟩
  · intro repoVer err h hq hne hu
    rw [ensureVersion_checkout_error env v ver repoVer err h hq hne hu]
    exact ⟨rfl, rfl⟩

/-- Witness of C9: a failing version query and a failing checkout, each with
the cache at `c` before and after. -/
theorem ensureVersion_atomic_on_failure_witness :
    ((ensureVersion muteRepo (VCS.mk (Checkout.mk "b" []) "c" []) "a").1
        = some "version query failed" ∧
      (ensureVersion muteRepo (VCS.mk (Checkout.mk "b" []) "c" []) "a").2.cachedVersion = "c") ∧
    ((ensureVersion stuckRepo (VCS.mk (Checkout.mk "b" []) "c" []) "a").1
        = some "checkout failed" ∧
      (ensureVersion stuckRepo (VCS.mk (Checkout.mk "b" []) "c" []) "a").2.cachedVersion = "c") ∧
    (ensureVersion stuckRepo (VCS.mk (Checkout.mk "b" []) "c" []) "a").2.cachedVersion = "c" :=
  ⟨(ensureVersion_atomic_on_failure muteRepo (VCS.mk (Checkout.mk "b" []) "c" []) "a").2.1
      "version query failed" (by decide) rfl,
   (ensureVersion_atomic_on_failure stuckRepo (VCS.mk (Checkout.mk "b" []) "c" []) "a").2.2
      "b" "checkout failed" (by decide) rfl (by decide) (by decide),
   (ensureVersion_atomic_on_failure stuckRepo (VCS.mk (Checkout.mk "b" []) "c" []) "a").1
      "checkout failed" (by decide)⟩

/-- C10: the fast path.  When `cachedVersion` equals the requested revision,
`ensureVersion` returns nil and leaves the whole state as it was: the cache,
the client, and the log of calls, so neither `Version()` nor `UpdateVersion()`
was called. -/
theorem ensureVersion_fast_path {σ : Type} (env : Env σ) (v : VCS σ) (ver : String)
    (h : v.cachedVersion = ver) :
    (ensureVersion env v ver).1 = none ∧
    (ensureVersion env v ver).2.calls = v.calls ∧
    (ensureVersion env v ver).2.Repo = v.Repo ∧
    (ensureVersion env v ver).2.cachedVersion = v.cachedVersion := by
  rw [ensureVersion_hit env v ver h]
  exact ⟨rfl, rfl, rfl, rfl⟩

/-- Witness of C10: the cache holds `a`, the client is at `b`, and
`ensureVersion("a")` touches nothing. -/
theorem ensureVersion_fast_path_witness :
    (VCS.mk (Checkout.mk "b" []) "a" [Call.Tags]).cachedVersion = "a" ∧
    (ensureVersion simpleRepo (VCS.mk (Checkout.mk "b" []) "a" [Call.Tags]) "a").1 = none ∧
    (ensureVersion simpleRepo (VCS.mk (Checkout.mk "b" []) "a" [Call.Tags]) "a").2.calls
      = [Call.Tags] ∧
    (ensureVersion simpleRepo (VCS.mk (Checkout.mk "b" []) "a" [Call.Tags]) "a").2.Repo
      = Checkout.mk "b" [] ∧
    (ensureVersion simpleRepo (VCS.mk (Checkout.mk "b" []) "a" [Call.Tags]) "a").2.cachedVersion
      = "a" :=
  ⟨rfl, ensureVersion_fast_path simpleRepo (VCS.mk (Checkout.mk "b" []) "a" [Call.Tags]) "a" rfl⟩

/-- C7, evaluated on the code: on a fresh `VCS` whose client is at `b`,
`ReadDir` and `OpenFile` invoked with the sentinel revision `.`, the "special
'filesystem' value to check the local working copy" (vcs.go:78), each call
`UpdateVersion(".")` on the client before they read. -/
theorem sentinel_read_makes_checkout :
    revisionFileSystem = "." ∧
    (ReadDir simpleRepo (VCS.fresh (Checkout.mk "b" [])) revisionFileSystem "pkg").2.calls
      = [Call.Version, Call.UpdateVersion ".", Call.ReadDir "pkg"] ∧
    (OpenFile simpleRepo (VCS.fresh (Checkout.mk "b" [])) revisionFileSystem "pkg/api.go").2.calls
      = [Call.Version, Call.UpdateVersion ".", Call.Open "pkg/api.go"] ∧
    updateCalls
      (ReadDir simpleRepo (VCS.fresh (Checkout.mk "b" [])) revisionFileSystem "pkg").2.calls = 1 ∧
    updateCalls
      (OpenFile simpleRepo (VCS.fresh (Checkout.mk "b" []))
        revisionFileSystem "pkg/api.go").2.calls = 1 := by
  decide

/-- C8 as stated fails: two consecutive calls `ensureVersion("a")` make two
`UpdateVersion("a")` calls when the checkout fails (`stuckRepo`), and also
when both calls succeed but the client reports the commit it resolved `a` to
(`resolvingRepo`). -/
theorem ensureVersion_twice_two_checkouts :
    (ensureVersion stuckRepo
      (ensureVersion stuckRepo (VCS.fresh (Checkout.mk "b" [])) "a").2 "a").2.calls
      = [Call.Version, Call.UpdateVersion "a", Call.Version, Call.UpdateVersion "a"] ∧
    (ensureVersion resolvingRepo (VCS.fresh (Checkout.mk "b" [])) "a").1 = none ∧
    (ensureVersion resolvingRepo
      (ensureVersion resolvingRepo (VCS.fresh (Checkout.mk "b" [])) "a").2 "a").1 = none ∧
    (ensureVersion resolvingRepo
      (ensureVersion resolvingRepo (VCS.fresh (Checkout.mk "b" [])) "a").2 "a").2.calls
      = [Call.Version, Call.UpdateVersion "a", Call.Version, Call.UpdateVersion "a"] ∧
    updateCalls (ensureVersion resolvingRepo
      (ensureVersion resolvingRepo (VCS.fresh (Checkout.mk "b" [])) "a").2 "a").2.calls = 2 := by
  decide

/-- C8, amended: two consecutive calls `ensureVersion(r)` add calls to the log
of which at most one is an `UpdateVersion`, if and only if the following does
not happen: the first call makes a checkout (the cache differs from `r` and
`Version()` reports a revision other than `r`) and, after that checkout,
`Version()` again reports a revision other than `r`.  The client may fail:
a checkout that fails, or a `Version()` that fails afterwards, is covered. -/
theorem ensureVersion_twice_one_checkout {σ : Type} (env : Env σ) (v : VCS σ) (r : String) :
    (∃ l, (ensureVersion env (ensureVersion env v r).2 r).2.calls = v.calls ++ l ∧
      updateCalls l ≤ 1) ↔
    (v.cachedVersion ≠ r → ∀ x, (env.Version v.Repo).1 = Except.ok x → x ≠ r →
      ∀ y, (env.Version (env.UpdateVersion (env.Version v.Repo).2 r).2).1 = Except.ok y →
        y = r) := by
  constructor
  · rintro ⟨l, hl, hle⟩ hc x hq hne y hq2
    by_contra hy
    obtain ⟨hcalls, hrepo, hcache⟩ := ensureVersion_checkout_calls env v r x hc hq hne
    have hq2w : (env.Version (ensureVersion env v r).2.Repo).1 = Except.ok y := by
      rw [hrepo]
      exact hq2
    obtain ⟨hcalls2, -, -⟩ :=
      ensureVersion_checkout_calls env (ensureVersion env v r).2 r y hcache hq2w hy
    rw [hcalls2, hcalls, List.append_assoc] at hl
    have hleq := List.append_cancel_left hl
    rw [← hleq] at hle
    simp [updateCalls, Call.isUpdate] at hle
  · intro hrep
    by_cases hc : v.cachedVersion = r
    · rw [ensureVersion_hit env v r hc]
      exact ensureVersion_calls env v r
    · cases hq : (env.Version v.Repo).1 with
      | error e =>
        rw [ensureVersion_query_error env v r e hc hq]
        obtain ⟨l, hl, hle⟩ := ensureVersion_calls env
          { v with Repo := (env.Version v.Repo).2, calls := v.calls ++ [Call.Version] } r
        refine ⟨[Call.Version] ++ l, ?_, ?_⟩
        · rw [hl, List.append_assoc]
        · rw [updateCalls_append]
          simpa [updateCalls, Call.isUpdate] using hle
      | ok x =>
        by_cases hne : x = r
        · subst hne
          rw [ensureVersion_confirm env v x hc hq, ensureVersion_hit _ _ _ rfl]
          exact ⟨[Call.Version], rfl, by decide⟩
        · obtain ⟨hcalls, hrepo, hcache⟩ := ensureVersion_checkout_calls env v r x hc hq hne
          have hq2 : ∀ y, (env.Version (ensureVersion env v r).2.Repo).1 = Except.ok y →
              y = r := by
            rw [hrepo]
            exact hrep hc x hq hne
          refine ⟨[Call.Version, Call.UpdateVersion r, Call.Version], ?_,
            by simp [updateCalls, Call.isUpdate]⟩
          rw [ensureVersion_query_calls env (ensureVersion env v r).2 r hcache hq2, hcalls]
          simp

/-- Witness of C8 amended: a client whose checkout can fail.  From `b` the
checkout of `a` succeeds and the second call makes none; the same client,
once `locked`, fails every checkout and is asked to check out twice. -/
theorem ensureVersion_twice_one_checkout_witness :
    (ensureVersion flakyRepo
      (ensureVersion flakyRepo (VCS.fresh (Checkout.mk "b" [])) "a").2 "a").2.calls
      = [Call.Version, Call.UpdateVersion "a", Call.Version] ∧
    (∃ l, (ensureVersion flakyRepo
      (ensureVersion flakyRepo (VCS.fresh (Checkout.mk "b" [])) "a").2 "a").2.calls
        = (VCS.fresh (Checkout.mk "b" [])).calls ++ l ∧ updateCalls l ≤ 1) ∧
    (ensureVersion flakyRepo
      (ensureVersion flakyRepo (VCS.fresh (Checkout.mk "locked" [])) "a").2 "a").2.calls
      = [Call.Version, Call.UpdateVersion "a", Call.Version, Call.UpdateVersion "a"] ∧
    ¬ (∃ l, (ensureVersion flakyRepo
      (ensureVersion flakyRepo (VCS.fresh (Checkout.mk "locked" [])) "a").2 "a").2.calls
        = (VCS.fresh (Checkout.mk "locked" [])).calls ++ l ∧ updateCalls l ≤ 1) :=
  ⟨by decide,
   (ensureVersion_twice_one_checkout flakyRepo (VCS.fresh (Checkout.mk "b" [])) "a").mpr
    (fun _ x hx _ y hy => by
      have h : (Except.ok "a" : Except Error String) = Except.ok y := hy
      injection h with h
      exact h.symm),
   by decide,
   fun hbound =>
    absurd
      ((ensureVersion_twice_one_checkout flakyRepo
          (VCS.fresh (Checkout.mk "locked" [])) "a").mp hbound
        (by decide) "locked" rfl (by decide) "locked" rfl)
      (by decide)⟩

/-! ## Tag selection -/

/-- C3, evaluated on the code: on a non-empty tag list of which no tag parses
as a semantic version, `latestSemVerTag` neither returns a tag nor returns an
error: it indexes the empty slice of parsed versions and panics.  This holds
with every sorting function that permutes its input. -/
theorem latestSemVerTag_panics_without_semver {σ : Type} (env : Env σ)
    (sortFn : List Version → List Version) (v : VCS σ) (tags : List String)
    (hs : SortsPerm sortFn) (ht : (env.Tags v.Repo).1 = Except.ok tags)
    (hne : tags ≠ []) (hnone : ∀ t ∈ tags, NewVersion t = none) :
    (latestSemVerTag env sortFn v).1 = Outcome.panic := by
  have hvs : tags.filterMap NewVersion = [] := by
    rw [List.filterMap_eq_nil_iff]
    exact hnone
  rw [latestSemVerTag_of_tags env sortFn v tags ht hne, hvs, hs.nil]

/-- Witness of C3: the tags `foo`, `not-a-version`, `v`. -/
theorem latestSemVerTag_panics_without_semver_witness :
    (latestSemVerTag simpleRepo sortCollection
      (VCS.fresh (Checkout.mk "b" ["foo", "not-a-version", "v"]))).1 = Outcome.panic :=
  latestSemVerTag_panics_without_semver simpleRepo sortCollection
    (VCS.fresh (Checkout.mk "b" ["foo", "not-a-version", "v"])) ["foo", "not-a-version", "v"]
    sortCollection_perm rfl (by decide) (by decide)

/-- C4, evaluated on the code: when the repository's tags are `v0.9.0`,
`v1.0.0`, `DefaultRevision` returns `before = "v0.9.0"`, although `v1.0.0`
parses and `v0.9.0` is lower in precedence than it.  This holds with every
sorting function that permutes its input into ascending order. -/
theorem DefaultRevision_returns_lowest_tag {σ : Type} (env : Env σ)
    (sortFn : List Version → List Version) (v : VCS σ)
    (hp : SortsPerm sortFn) (ha : SortsAscending sortFn)
    (ht : (env.Tags v.Repo).1 = Except.ok ["v0.9.0", "v1.0.0"]) :
    (DefaultRevision env sortFn v).1 = Outcome.ok ("v0.9.0", ".") ∧
    NewVersion "v0.9.0" = some (Version.mk 0 9 0 "" "" "v0.9.0") ∧
    NewVersion "v1.0.0" = some (Version.mk 1 0 0 "" "" "v1.0.0") ∧
    (Version.mk 0 9 0 "" "" "v0.9.0").LessThan (Version.mk 1 0 0 "" "" "v1.0.0") = true := by
  have hvs : ["v0.9.0", "v1.0.0"].filterMap NewVersion =
      [Version.mk 0 9 0 "" "" "v0.9.0", Version.mk 1 0 0 "" "" "v1.0.0"] := by decide
  have hlt : (Version.mk 0 9 0 "" "" "v0.9.0").LessThan
      (Version.mk 1 0 0 "" "" "v1.0.0") = true := by decide
  refine ⟨?_, by decide, by decide, hlt⟩
  have hsel := latestSemVerTag_of_tags env sortFn v ["v0.9.0", "v1.0.0"] ht (by simp)
  rw [hvs] at hsel
  cases hsorted : sortFn [Version.mk 0 9 0 "" "" "v0.9.0", Version.mk 1 0 0 "" "" "v1.0.0"] with
  | nil =>
    have hperm := hp [Version.mk 0 9 0 "" "" "v0.9.0", Version.mk 1 0 0 "" "" "v1.0.0"]
    rw [hsorted] at hperm
    exact absurd hperm.symm.eq_nil (by simp)
  | cons x xs =>
    have hmin := head_not_preceded hp ha _ x xs hsorted
      (Version.mk 0 9 0 "" "" "v0.9.0") (by simp)
    have hxmem : x ∈ [Version.mk 0 9 0 "" "" "v0.9.0", Version.mk 1 0 0 "" "" "v1.0.0"] :=
      (hp _).mem_iff.mp (by rw [hsorted]; exact List.mem_cons_self x xs)
    have hx : x = Version.mk 0 9 0 "" "" "v0.9.0" := by
      rcases List.mem_cons.mp hxmem with h | h
      · exact h
      · have h2 : x = Version.mk 1 0 0 "" "" "v1.0.0" := by simpa using h
        rw [h2, hlt] at hmin
        exact absurd hmin (by simp)
    rw [hsorted, hx] at hsel
    unfold DefaultRevision
    simp only [hsel]
    rfl

/-- Witness of C4: the test client with the tags `v0.9.0`, `v1.0.0` and
insertion sort. -/
theorem DefaultRevision_returns_lowest_tag_witness :
    (DefaultRevision simpleRepo sortCollection
      (VCS.fresh (Checkout.mk "b" ["v0.9.0", "v1.0.0"]))).1 = Outcome.ok ("v0.9.0", ".") :=
  (DefaultRevision_returns_lowest_tag simpleRepo sortCollection
    (VCS.fresh (Checkout.mk "b" ["v0.9.0", "v1.0.0"]))
    sortCollection_perm sortCollection_ascending rfl).1

/-- C5: when the repository's tag list has at least one tag that parses as a
semantic version, `latestSemVerTag` returns a string with a nil error; that
string is an element of the tag list, and it parses as a semantic version.
This holds with every sorting function that permutes its input. -/
theorem latestSemVerTag_returns_input_tag {σ : Type} (env : Env σ)
    (sortFn : List Version → List Version) (v : VCS σ) (tags : List String)
    (hs : SortsPerm sortFn) (ht : (env.Tags v.Repo).1 = Except.ok tags)
    (hsome : ∃ t ∈ tags, (NewVersion t).isSome = true) :
    ∃ s, (latestSemVerTag env sortFn v).1 = Outcome.ok s ∧ s ∈ tags ∧
      (NewVersion s).isSome = true := by
  obtain ⟨t, htmem, htsome⟩ := hsome
  have hne : tags ≠ [] := List.ne_nil_of_mem htmem
  obtain ⟨x, hx⟩ := Option.isSome_iff_exists.mp htsome
  have hxmem : x ∈ sortFn (tags.filterMap NewVersion) :=
    (hs _).mem_iff.mpr (List.mem_filterMap.mpr ⟨t, htmem, hx⟩)
  rw [latestSemVerTag_of_tags env sortFn v tags ht hne]
  cases hsorted : sortFn (tags.filterMap NewVersion) with
  | nil =>
    rw [hsorted] at hxmem
    exact absurd hxmem (List.not_mem_nil x)
  | cons y ys =>
    have hymem : y ∈ tags.filterMap NewVersion :=
      (hs _).mem_iff.mp (by rw [hsorted]; exact List.mem_cons_self y ys)
    obtain ⟨s, hsmem, hsy⟩ := List.mem_filterMap.mp hymem
    refine ⟨y.Original, rfl, ?_, ?_⟩
    · rw [NewVersion_original s y hsy]
      exact hsmem
    · rw [NewVersion_original s y hsy, hsy]
      rfl

/-- Witness of C5: among the tags `garbage`, `1.2`, `v1.0.0` the selected one
is `v1.0.0`, in the form the repository lists it. -/
theorem latestSemVerTag_returns_input_tag_witness :
    (latestSemVerTag simpleRepo sortCollection
      (VCS.fresh (Checkout.mk "b" ["garbage", "1.2", "v1.0.0"]))).1 = Outcome.ok "v1.0.0" ∧
    ∃ s, (latestSemVerTag simpleRepo sortCollection
        (VCS.fresh (Checkout.mk "b" ["garbage", "1.2", "v1.0.0"]))).1 = Outcome.ok s ∧
      s ∈ ["garbage", "1.2", "v1.0.0"] ∧ (NewVersion s).isSome = true :=
  ⟨by decide,
   latestSemVerTag_returns_input_tag simpleRepo sortCollection
    (VCS.fresh (Checkout.mk "b" ["garbage", "1.2", "v1.0.0"])) ["garbage", "1.2", "v1.0.0"]
    sortCollection_perm rfl ⟨"v1.0.0", by decide, by decide⟩⟩

/-! ## The revision cache, continued -/

theorem readCalls_append (l m : List Call) :
    readCalls (l ++ m) = readCalls l + readCalls m := by
  simp [readCalls]

/-- The calls that `ensureVersion` adds to the log are none of them reads of
the file system. -/
theorem ensureVersion_no_read {σ : Type} (env : Env σ) (v : VCS σ) (ver : String) :
    ∃ l, (ensureVersion env v ver).2.calls = v.calls ++ l ∧ readCalls l = 0 := by
  by_cases hc : v.cachedVersion = ver
  · exact ⟨[], by rw [ensureVersion_hit env v ver hc]; simp, rfl⟩
  · cases hq : (env.Version v.Repo).1 with
    | error e =>
      exact ⟨[Call.Version], by rw [ensureVersion_query_error env v ver e hc hq], rfl⟩
    | ok r =>
      by_cases hne : r = ver
      · subst hne
        exact ⟨[Call.Version], by rw [ensureVersion_confirm env v r hc hq], rfl⟩
      · cases hu : (env.UpdateVersion (env.Version v.Repo).2 ver).1 with
        | some e =>
          refine ⟨[Call.Version, Call.UpdateVersion ver], ?_, rfl⟩
          rw [ensureVersion_checkout_error env v ver r e hc hq hne hu]
          simp
        | none =>
          refine ⟨[Call.Version, Call.UpdateVersion ver], ?_, rfl⟩
          rw [ensureVersion_checkout_ok env v ver r hc hq hne hu]
          simp

/-- C11: when `cachedVersion` differs from the requested revision and the
client's `Version()` reports the requested revision, `ensureVersion` returns
nil, the one call it makes is the version query (no `UpdateVersion`), and
`cachedVersion` becomes the requested revision. -/
theorem ensureVersion_confirms_reported {σ : Type} (env : Env σ) (v : VCS σ)
    (ver : String) (hc : v.cachedVersion ≠ ver)
    (hq : (env.Version v.Repo).1 = Except.ok ver) :
    (ensureVersion env v ver).1 = none ∧
    (ensureVersion env v ver).2.calls = v.calls ++ [Call.Version] ∧
    updateCalls (ensureVersion env v ver).2.calls = updateCalls v.calls ∧
    (ensureVersion env v ver).2.cachedVersion = ver := by
  rw [ensureVersion_confirm env v ver hc hq]
  refine ⟨rfl, rfl, ?_, rfl⟩
  show updateCalls (v.calls ++ [Call.Version]) = updateCalls v.calls
  rw [updateCalls_append]
  rfl

/-- Witness of C11: the cache holds `b`, the client is at `a`, and `a` is
requested. -/
theorem ensureVersion_confirms_reported_witness :
    (ensureVersion simpleRepo (VCS.mk (Checkout.mk "a" []) "b" []) "a").1 = none ∧
    (ensureVersion simpleRepo (VCS.mk (Checkout.mk "a" []) "b" []) "a").2.calls
      = [] ++ [Call.Version] ∧
    updateCalls (ensureVersion simpleRepo (VCS.mk (Checkout.mk "a" []) "b" []) "a").2.calls
      = updateCalls [] ∧
    (ensureVersion simpleRepo (VCS.mk (Checkout.mk "a" []) "b" []) "a").2.cachedVersion = "a" :=
  ensureVersion_confirms_reported simpleRepo (VCS.mk (Checkout.mk "a" []) "b" []) "a"
    (by decide) rfl

/-- C18: retry after a failed checkout.  When `ensureVersion(r)` fails because
the `UpdateVersion(r)` it made failed, and the client then still reports a
version other than `r`, the next `ensureVersion(r)` does not return on the
cache: it calls `Version()` and then `UpdateVersion(r)` again. -/
theorem ensureVersion_retries_failed_checkout {σ : Type} (env : Env σ) (v : VCS σ)
    (r x y : String) (err : Error) (hc : v.cachedVersion ≠ r)
    (hq : (env.Version v.Repo).1 = Except.ok x) (hx : x ≠ r)
    (hu : (env.UpdateVersion (env.Version v.Repo).2 r).1 = some err)
    (hq2 : (env.Version (ensureVersion env v r).2.Repo).1 = Except.ok y) (hy : y ≠ r) :
    (ensureVersion env v r).1 = some err ∧
    (ensureVersion env v r).2.calls = v.calls ++ [Call.Version, Call.UpdateVersion r] ∧
    (ensureVersion env v r).2.cachedVersion ≠ r ∧
    (ensureVersion env (ensureVersion env v r).2 r).2.calls =
      (ensureVersion env v r).2.calls ++ [Call.Version, Call.UpdateVersion r] := by
  have hfirst := ensureVersion_checkout_error env v r x err hc hq hx hu
  have hcache : (ensureVersion env v r).2.cachedVersion ≠ r := by
    rw [hfirst]
    exact hc
  refine ⟨by rw [hfirst], by rw [hfirst]; simp, hcache, ?_⟩
  cases hu2 : (env.UpdateVersion (env.Version (ensureVersion env v r).2.Repo).2 r).1 with
  | some e =>
    rw [ensureVersion_checkout_error env (ensureVersion env v r).2 r y e hcache hq2 hy hu2]
    simp
  | none =>
    rw [ensureVersion_checkout_ok env (ensureVersion env v r).2 r y hcache hq2 hy hu2]
    simp

/-- Witness of C18: the client whose checkout fails, at `b`, asked for `a`
twice. -/
theorem ensureVersion_retries_failed_checkout_witness :
    (ensureVersion stuckRepo (VCS.fresh (Checkout.mk "b" [])) "a").1 = some "checkout failed" ∧
    (ensureVersion stuckRepo (VCS.fresh (Checkout.mk "b" [])) "a").2.calls
      = (VCS.fresh (Checkout.mk "b" [])).calls ++ [Call.Version, Call.UpdateVersion "a"] ∧
    (ensureVersion stuckRepo (VCS.fresh (Checkout.mk "b" [])) "a").2.cachedVersion ≠ "a" ∧
    (ensureVersion stuckRepo
      (ensureVersion stuckRepo (VCS.fresh (Checkout.mk "b" [])) "a").2 "a").2.calls
      = (ensureVersion stuckRepo (VCS.fresh (Checkout.mk "b" [])) "a").2.calls
          ++ [Call.Version, Call.UpdateVersion "a"] :=
  ensureVersion_retries_failed_checkout stuckRepo (VCS.fresh (Checkout.mk "b" []))
    "a" "b" "b" "checkout failed" (by decide) rfl (by decide) rfl rfl (by decide)

/-! ## The read operations -/

theorem ReadDir_of_error {σ : Type} (env : Env σ) (v : VCS σ) (revision path : String)
    (err : Error) (h : (ensureVersion env v revision).1 = some err) :
    ReadDir env v revision path = (Except.error err, (ensureVersion env v revision).2) := by
  unfold ReadDir
  simp [h]

theorem OpenFile_of_error {σ : Type} (env : Env σ) (v : VCS σ) (revision path : String)
    (err : Error) (h : (ensureVersion env v revision).1 = some err) :
    OpenFile env v revision path = (Except.error err, (ensureVersion env v revision).2) := by
  unfold OpenFile
  simp [h]

theorem ReadDir_of_ok {σ : Type} (env : Env σ) (v : VCS σ) (revision path : String)
    (h : (ensureVersion env v revision).1 = none) :
    ReadDir env v revision path =
      ((env.ReadDir (ensureVersion env v revision).2.Repo path).1,
       { (ensureVersion env v revision).2 with
         Repo := (env.ReadDir (ensureVersion env v revision).2.Repo path).2,
         calls := (ensureVersion env v revision).2.calls ++ [Call.ReadDir path] }) := by
  unfold ReadDir
  simp [h]

theorem OpenFile_of_ok {σ : Type} (env : Env σ) (v : VCS σ) (revision path : String)
    (h : (ensureVersion env v revision).1 = none) :
    OpenFile env v revision path =
      ((env.Open (ensureVersion env v revision).2.Repo path).1,
       { (ensureVersion env v revision).2 with
         Repo := (env.Open (ensureVersion env v revision).2.Repo path).2,
         calls := (ensureVersion env v revision).2.calls ++ [Call.Open path] }) := by
  unfold OpenFile
  simp [h]

/-- A path joined to a root is never the path itself. -/
theorem joinPath_ne (root path : String) : joinPath root path ≠ path := by
  intro h
  have hlen := congrArg String.length h
  simp only [joinPath, String.length_append] at hlen
  have hsep : "/".length = 1 := by decide
  omega

/-- C15: `ReadDir` and `OpenFile` call `ensureVersion(revision)` first, and
`ensureVersion` itself reads no file.  When it fails they return its error
and stop in the state it left, so no file-system read is made; when it
succeeds they make one file-system read, after it, and return what that read
returns, its result or its error. -/
theorem reads_follow_ensureVersion {σ : Type} (env : Env σ) (v : VCS σ)
    (revision path : String) :
    (∃ l, (ensureVersion env v revision).2.calls = v.calls ++ l ∧ readCalls l = 0) ∧
    (∀ err, (ensureVersion env v revision).1 = some err →
      (ReadDir env v revision path).1 = Except.error err ∧
      (ReadDir env v revision path).2.calls = (ensureVersion env v revision).2.calls ∧
      (ReadDir env v revision path).2.Repo = (ensureVersion env v revision).2.Repo ∧
      (OpenFile env v revision path).1 = Except.error err ∧
      (OpenFile env v revision path).2.calls = (ensureVersion env v revision).2.calls ∧
      (OpenFile env v revision path).2.Repo = (ensureVersion env v revision).2.Repo) ∧
    ((ensureVersion env v revision).1 = none →
      (ReadDir env v revision path).1
        = (env.ReadDir (ensureVersion env v revision).2.Repo path).1 ∧
      (ReadDir env v revision path).2.calls
        = (ensureVersion env v revision).2.calls ++ [Call.ReadDir path] ∧
      (OpenFile env v revision path).1
        = (env.Open (ensureVersion env v revision).2.Repo path).1 ∧
      (OpenFile env v revision path).2.calls
        = (ensureVersion env v revision).2.calls ++ [Call.Open path]) := by
  refine ⟨ensureVersion_no_read env v revision, ?_, ?_⟩
  · intro err h
    rw [ReadDir_of_error env v revision path err h, OpenFile_of_error env v revision path err h]
    exact ⟨rfl, rfl, rfl, rfl, rfl, rfl⟩
  · intro h
    rw [ReadDir_of_ok env v revision path h, OpenFile_of_ok env v revision path h]
    exact ⟨rfl, rfl, rfl, rfl⟩

/-- Witness of C15: a checkout that fails, after which nothing is read, and a
checkout that succeeds, after which one read is made. -/
theorem reads_follow_ensureVersion_witness :
    ((ReadDir stuckRepo (VCS.fresh (Checkout.mk "b" [])) "a" "pkg").1
        = Except.error "checkout failed" ∧
      (ReadDir stuckRepo (VCS.fresh (Checkout.mk "b" [])) "a" "pkg").2.calls
        = (ensureVersion stuckRepo (VCS.fresh (Checkout.mk "b" [])) "a").2.calls ∧
      (ReadDir stuckRepo (VCS.fresh (Checkout.mk "b" [])) "a" "pkg").2.Repo
        = (ensureVersion stuckRepo (VCS.fresh (Checkout.mk "b" [])) "a").2.Repo ∧
      (OpenFile stuckRepo (VCS.fresh (Checkout.mk "b" [])) "a" "pkg").1
        = Except.error "checkout failed" ∧
      (OpenFile stuckRepo (VCS.fresh (Checkout.mk "b" [])) "a" "pkg").2.calls
        = (ensureVersion stuckRepo (VCS.fresh (Checkout.mk "b" [])) "a").2.calls ∧
      (OpenFile stuckRepo (VCS.fresh (Checkout.mk "b" [])) "a" "pkg").2.Repo
        = (ensureVersion stuckRepo (VCS.fresh (Checkout.mk "b" [])) "a").2.Repo) ∧
    ((ReadDir simpleRepo (VCS.fresh (Checkout.mk "b" [])) "a" "pkg").1
        = (simpleRepo.ReadDir
            (ensureVersion simpleRepo (VCS.fresh (Checkout.mk "b" [])) "a").2.Repo "pkg").1 ∧
      (ReadDir simpleRepo (VCS.fresh (Checkout.mk "b" [])) "a" "pkg").2.calls
        = (ensureVersion simpleRepo (VCS.fresh (Checkout.mk "b" [])) "a").2.calls
            ++ [Call.ReadDir "pkg"] ∧
      (OpenFile simpleRepo (VCS.fresh (Checkout.mk "b" [])) "a" "pkg").1
        = (simpleRepo.Open
            (ensureVersion simpleRepo (VCS.fresh (Checkout.mk "b" [])) "a").2.Repo "pkg").1 ∧
      (OpenFile simpleRepo (VCS.fresh (Checkout.mk "b" [])) "a" "pkg").2.calls
        = (ensureVersion simpleRepo (VCS.fresh (Checkout.mk "b" [])) "a").2.calls
            ++ [Call.Open "pkg"]) ∧
    (ReadDir stuckRepo (VCS.fresh (Checkout.mk "b" [])) "a" "pkg").2.calls
      = [Call.Version, Call.UpdateVersion "a"] ∧
    (ReadDir simpleRepo (VCS.fresh (Checkout.mk "b" [])) "a" "pkg").2.calls
      = [Call.Version, Call.UpdateVersion "a", Call.ReadDir "pkg"] :=
  ⟨(reads_follow_ensureVersion stuckRepo (VCS.fresh (Checkout.mk "b" [])) "a" "pkg").2.1
      "checkout failed" (by decide),
   (reads_follow_ensureVersion simpleRepo (VCS.fresh (Checkout.mk "b" [])) "a" "pkg").2.2
      (by decide),
   by decide, by decide⟩

/-- C16 as stated fails: for a repository whose local path is
`/tmp/apicompat`, `OpenFile` and `ReadDir` called with the path `pkg/api.go`
hand `pkg/api.go` to the file system, not `/tmp/apicompat/pkg/api.go`. -/
theorem read_path_not_joined_to_local_root :
    (VCS.fresh (Clone.mk "/tmp/apicompat" (Checkout.mk "b" []))).Repo.LocalPath
      = "/tmp/apicompat" ∧
    joinPath "/tmp/apicompat" "pkg/api.go" = "/tmp/apicompat/pkg/api.go" ∧
    (OpenFile cloneRepo (VCS.fresh (Clone.mk "/tmp/apicompat" (Checkout.mk "b" [])))
      "a" "pkg/api.go").2.calls
      = [Call.Version, Call.UpdateVersion "a", Call.Open "pkg/api.go"] ∧
    (ReadDir cloneRepo (VCS.fresh (Clone.mk "/tmp/apicompat" (Checkout.mk "b" [])))
      "a" "pkg/api.go").2.calls
      = [Call.Version, Call.UpdateVersion "a", Call.ReadDir "pkg/api.go"] ∧
    Call.Open "/tmp/apicompat/pkg/api.go" ∉
      (OpenFile cloneRepo (VCS.fresh (Clone.mk "/tmp/apicompat" (Checkout.mk "b" [])))
        "a" "pkg/api.go").2.calls ∧
    Call.ReadDir "/tmp/apicompat/pkg/api.go" ∉
      (ReadDir cloneRepo (VCS.fresh (Clone.mk "/tmp/apicompat" (Checkout.mk "b" [])))
        "a" "pkg/api.go").2.calls := by
  decide

/-- C16, amended: for every revision and path, when `ensureVersion` succeeds
the one file-system read that `ReadDir` and `OpenFile` make is at the
caller's path taken as is, which is not that path joined to any root. -/
theorem read_path_is_callers_path {σ : Type} (env : Env σ) (v : VCS σ)
    (revision path : String) (h : (ensureVersion env v revision).1 = none) :
    (∃ l, (ReadDir env v revision path).2.calls = v.calls ++ l ++ [Call.ReadDir path] ∧
      readCalls l = 0) ∧
    (∃ l, (OpenFile env v revision path).2.calls = v.calls ++ l ++ [Call.Open path] ∧
      readCalls l = 0) ∧
    (ReadDir env v revision path).1
      = (env.ReadDir (ensureVersion env v revision).2.Repo path).1 ∧
    (OpenFile env v revision path).1
      = (env.Open (ensureVersion env v revision).2.Repo path).1 ∧
    ∀ root, joinPath root path ≠ path := by
  obtain ⟨l, hl, hz⟩ := ensureVersion_no_read env v revision
  rw [ReadDir_of_ok env v revision path h, OpenFile_of_ok env v revision path h]
  refine ⟨⟨l, ?_, hz⟩, ⟨l, ?_, hz⟩, rfl, rfl, fun root => joinPath_ne root path⟩
  · show (ensureVersion env v revision).2.calls ++ [Call.ReadDir path] = _
    rw [hl]
  · show (ensureVersion env v revision).2.calls ++ [Call.Open path] = _
    rw [hl]

/-- Witness of C16 amended: the repository at `/tmp/apicompat`, read at
`pkg/api.go`. -/
theorem read_path_is_callers_path_witness :
    (∃ l, (ReadDir cloneRepo (VCS.fresh (Clone.mk "/tmp/apicompat" (Checkout.mk "b" [])))
        "a" "pkg/api.go").2.calls
          = (VCS.fresh (Clone.mk "/tmp/apicompat" (Checkout.mk "b" []))).calls ++ l
              ++ [Call.ReadDir "pkg/api.go"] ∧ readCalls l = 0) ∧
    (∃ l, (OpenFile cloneRepo (VCS.fresh (Clone.mk "/tmp/apicompat" (Checkout.mk "b" [])))
        "a" "pkg/api.go").2.calls
          = (VCS.fresh (Clone.mk "/tmp/apicompat" (Checkout.mk "b" []))).calls ++ l
              ++ [Call.Open "pkg/api.go"] ∧ readCalls l = 0) :=
  ⟨(read_path_is_callers_path cloneRepo
      (VCS.fresh (Clone.mk "/tmp/apicompat" (Checkout.mk "b" []))) "a" "pkg/api.go"
      (by decide)).1,
   (read_path_is_callers_path cloneRepo
      (VCS.fresh (Clone.mk "/tmp/apicompat" (Checkout.mk "b" []))) "a" "pkg/api.go"
      (by decide)).2.1⟩

/-! ## Tag selection, continued -/

/-- Deleting the tags that do not parse leaves the parsed versions as they
were. -/
theorem filterMap_filter_parsable (tags : List String) :
    (tags.filter (fun t => (NewVersion t).isSome)).filterMap NewVersion
      = tags.filterMap NewVersion := by
  induction tags with
  | nil => rfl
  | cons t ts ih =>
    cases ht : NewVersion t with
    | none => simp [List.filter_cons, List.filterMap_cons, ht, ih]
    | some x => simp [List.filter_cons, List.filterMap_cons, ht, ih]

/-- With a parsable tag in the list, `latestSemVerTag` returns the original
string of the head of the sorted parsed versions, which is one of the tags
and parses to that head. -/
theorem latestSemVerTag_selects {σ : Type} (env : Env σ)
    (sortFn : List Version → List Version) (v : VCS σ) (tags : List String)
    (hs : SortsPerm sortFn) (ht : (env.Tags v.Repo).1 = Except.ok tags)
    (hsome : ∃ t ∈ tags, (NewVersion t).isSome = true) :
    ∃ x xs, sortFn (tags.filterMap NewVersion) = x :: xs ∧
      (latestSemVerTag env sortFn v).1 = Outcome.ok x.Original ∧
      x.Original ∈ tags ∧ NewVersion x.Original = some x := by
  obtain ⟨t, htmem, htsome⟩ := hsome
  have hne : tags ≠ [] := List.ne_nil_of_mem htmem
  obtain ⟨z, hz⟩ := Option.isSome_iff_exists.mp htsome
  have hzmem : z ∈ sortFn (tags.filterMap NewVersion) :=
    (hs _).mem_iff.mpr (List.mem_filterMap.mpr ⟨t, htmem, hz⟩)
  have hsel := latestSemVerTag_of_tags env sortFn v tags ht hne
  cases hsorted : sortFn (tags.filterMap NewVersion) with
  | nil =>
    rw [hsorted] at hzmem
    exact absurd hzmem (List.not_mem_nil z)
  | cons x xs =>
    have hxmem : x ∈ tags.filterMap NewVersion :=
      (hs _).mem_iff.mp (by rw [hsorted]; exact List.mem_cons_self x xs)
    obtain ⟨s, hsmem, hsx⟩ := List.mem_filterMap.mp hxmem
    have horig := NewVersion_original s x hsx
    rw [hsorted] at hsel
    refine ⟨x, xs, rfl, hsel, ?_, ?_⟩
    · rw [horig]
      exact hsmem
    · rw [horig]
      exact hsx

/-- A version that does not precede another is not lower than it. -/
theorem Compare_le_of_LessThan_eq_false (a b : Version) (h : b.LessThan a = false) :
    a.Compare b ≤ 0 := by
  have s := Compare_isPrecedence.swap a b
  unfold Version.LessThan at h
  rw [decide_eq_false_iff_not] at h
  omega

/-- C12: `DefaultRevision` returns the tag that `latestSemVerTag` returns as
`before`, with the sentinel `.` as `after`; it returns the error that
`latestSemVerTag` returns, among them the error of a failed `Tags()`. -/
theorem DefaultRevision_pairs_tag_with_sentinel {σ : Type} (env : Env σ)
    (sortFn : List Version → List Version) (v : VCS σ) :
    revisionFileSystem = "." ∧
    (∀ s, (latestSemVerTag env sortFn v).1 = Outcome.ok s →
      (DefaultRevision env sortFn v).1 = Outcome.ok (s, revisionFileSystem)) ∧
    (∀ err, (latestSemVerTag env sortFn v).1 = Outcome.error err →
      (DefaultRevision env sortFn v).1 = Outcome.error err) ∧
    (∀ err, (env.Tags v.Repo).1 = Except.error err →
      (DefaultRevision env sortFn v).1 = Outcome.error err) := by
  refine ⟨rfl, ?_, ?_, ?_⟩
  · intro s h
    unfold DefaultRevision
    simp only [h]
  · intro err h
    unfold DefaultRevision
    simp only [h]
  · intro err h
    have hl : (latestSemVerTag env sortFn v).1 = Outcome.error err := by
      unfold latestSemVerTag
      simp only [h]
    unfold DefaultRevision
    simp only [hl]

/-- Witness of C12: one tag, no tag, and a tag query that fails. -/
theorem DefaultRevision_pairs_tag_with_sentinel_witness :
    (DefaultRevision simpleRepo sortCollection (VCS.fresh (Checkout.mk "b" ["v1.0.0"]))).1
      = Outcome.ok ("v1.0.0", revisionFileSystem) ∧
    (DefaultRevision simpleRepo sortCollection (VCS.fresh (Checkout.mk "b" []))).1
      = Outcome.error "0 tags detected" ∧
    (DefaultRevision taglessRepo sortCollection (VCS.fresh (Checkout.mk "b" ["v1.0.0"]))).1
      = Outcome.error "tag query failed" :=
  ⟨(DefaultRevision_pairs_tag_with_sentinel simpleRepo sortCollection
      (VCS.fresh (Checkout.mk "b" ["v1.0.0"]))).2.1 "v1.0.0" (by decide),
   (DefaultRevision_pairs_tag_with_sentinel simpleRepo sortCollection
      (VCS.fresh (Checkout.mk "b" []))).2.2.1 "0 tags detected" (by decide),
   (DefaultRevision_pairs_tag_with_sentinel taglessRepo sortCollection
      (VCS.fresh (Checkout.mk "b" ["v1.0.0"]))).2.2.2 "tag query failed" rfl⟩

/-- C14: when `Tags()` returns an empty list, `latestSemVerTag` returns the
error `0 tags detected` and no tag, and so does `DefaultRevision`. -/
theorem latestSemVerTag_no_tags {σ : Type} (env : Env σ)
    (sortFn : List Version → List Version) (v : VCS σ)
    (ht : (env.Tags v.Repo).1 = Except.ok []) :
    (latestSemVerTag env sortFn v).1 = Outcome.error "0 tags detected" ∧
    (DefaultRevision env sortFn v).1 = Outcome.error "0 tags detected" := by
  have hl : (latestSemVerTag env sortFn v).1 = Outcome.error "0 tags detected" := by
    unfold latestSemVerTag
    simp [ht]
  refine ⟨hl, ?_⟩
  unfold DefaultRevision
  simp only [hl]

/-- Witness of C14: a repository without tags. -/
theorem latestSemVerTag_no_tags_witness :
    (latestSemVerTag simpleRepo sortCollection (VCS.fresh (Checkout.mk "b" []))).1
      = Outcome.error "0 tags detected" ∧
    (DefaultRevision simpleRepo sortCollection (VCS.fresh (Checkout.mk "b" []))).1
      = Outcome.error "0 tags detected" :=
  latestSemVerTag_no_tags simpleRepo sortCollection (VCS.fresh (Checkout.mk "b" [])) rfl

/-- C13: tags that do not parse do not influence the selection.  When the
tag list has a tag that parses, `latestSemVerTag` returns a tag, and it
returns the same tag for a repository whose tag list is that list with every
tag that does not parse deleted.  This holds with every sorting function that
permutes its input. -/
theorem latestSemVerTag_ignores_unparsable {σ τ : Type} (env : Env σ) (env2 : Env τ)
    (sortFn : List Version → List Version) (v : VCS σ) (v2 : VCS τ) (tags : List String)
    (hs : SortsPerm sortFn) (ht : (env.Tags v.Repo).1 = Except.ok tags)
    (ht2 : (env2.Tags v2.Repo).1
      = Except.ok (tags.filter (fun t => (NewVersion t).isSome)))
    (hsome : ∃ t ∈ tags, (NewVersion t).isSome = true) :
    ∃ s, (latestSemVerTag env sortFn v).1 = Outcome.ok s ∧
      (latestSemVerTag env2 sortFn v2).1 = Outcome.ok s := by
  obtain ⟨x, xs, hsorted, hsel, -, -⟩ := latestSemVerTag_selects env sortFn v tags hs ht hsome
  obtain ⟨t, htmem, htsome⟩ := hsome
  have hne2 : tags.filter (fun t => (NewVersion t).isSome) ≠ [] :=
    List.ne_nil_of_mem (List.mem_filter.mpr ⟨htmem, htsome⟩)
  have hsel2 := latestSemVerTag_of_tags env2 sortFn v2 _ ht2 hne2
  rw [filterMap_filter_parsable, hsorted] at hsel2
  exact ⟨x.Original, hsel, hsel2⟩

/-- Witness of C13: the tags `junk`, `v1.2.0`, `latest`, `v1.0.0`, `v` and
the tags `v1.2.0`, `v1.0.0` left of them. -/
theorem latestSemVerTag_ignores_unparsable_witness :
    (latestSemVerTag simpleRepo sortCollection
      (VCS.fresh (Checkout.mk "b" ["junk", "v1.2.0", "latest", "v1.0.0", "v"]))).1
      = Outcome.ok "v1.0.0" ∧
    ∃ s, (latestSemVerTag simpleRepo sortCollection
        (VCS.fresh (Checkout.mk "b" ["junk", "v1.2.0", "latest", "v1.0.0", "v"]))).1
          = Outcome.ok s ∧
      (latestSemVerTag simpleRepo sortCollection
        (VCS.fresh (Checkout.mk "b" ["v1.2.0", "v1.0.0"]))).1 = Outcome.ok s :=
  ⟨by decide,
   latestSemVerTag_ignores_unparsable simpleRepo simpleRepo sortCollection
    (VCS.fresh (Checkout.mk "b" ["junk", "v1.2.0", "latest", "v1.0.0", "v"]))
    (VCS.fresh (Checkout.mk "b" ["v1.2.0", "v1.0.0"]))
    ["junk", "v1.2.0", "latest", "v1.0.0", "v"]
    sortCollection_perm rfl (congrArg Except.ok (by decide))
    ⟨"v1.0.0", by decide, by decide⟩⟩

/-- C17: when the tag list has a tag that parses, `latestSemVerTag` returns
the original string of the first element of the parsed versions sorted in
ascending order; that string parses to a version that is not higher in
precedence than the version of any tag that parses, and no such version
precedes it. -/
theorem latestSemVerTag_returns_lowest {σ : Type} (env : Env σ)
    (sortFn : List Version → List Version) (v : VCS σ) (tags : List String)
    (hp : SortsPerm sortFn) (ha : SortsAscending sortFn)
    (ht : (env.Tags v.Repo).1 = Except.ok tags)
    (hsome : ∃ t ∈ tags, (NewVersion t).isSome = true) :
    ∃ x xs, sortFn (tags.filterMap NewVersion) = x :: xs ∧
      (latestSemVerTag env sortFn v).1 = Outcome.ok x.Original ∧
      NewVersion x.Original = some x ∧
      ∀ t ∈ tags, ∀ y, NewVersion t = some y → x.Compare y ≤ 0 ∧ y.LessThan x = false := by
  obtain ⟨x, xs, hsorted, hsel, -, hparse⟩ :=
    latestSemVerTag_selects env sortFn v tags hp ht hsome
  refine ⟨x, xs, hsorted, hsel, hparse, ?_⟩
  intro t htmem y hy
  have hlt : y.LessThan x = false :=
    head_not_preceded hp ha _ x xs hsorted y (List.mem_filterMap.mpr ⟨t, htmem, hy⟩)
  exact ⟨Compare_le_of_LessThan_eq_false x y hlt, hlt⟩

/-- Witness of C17: the tags `v1.0.0`, `v1.2.0`, `v2.0.0`, `garbage` yield
`v1.0.0`. -/
theorem latestSemVerTag_returns_lowest_witness :
    (latestSemVerTag simpleRepo sortCollection
      (VCS.fresh (Checkout.mk "b" ["v1.0.0", "v1.2.0", "v2.0.0", "garbage"]))).1
      = Outcome.ok "v1.0.0" ∧
    (latestSemVerTag simpleRepo sortCollection
      (VCS.fresh (Checkout.mk "b" ["v2.0.0", "garbage", "v1.2.0", "v1.0.0"]))).1
      = Outcome.ok "v1.0.0" ∧
    ∃ x xs, sortCollection (["v1.0.0", "v1.2.0", "v2.0.0", "garbage"].filterMap NewVersion)
        = x :: xs ∧
      (latestSemVerTag simpleRepo sortCollection
        (VCS.fresh (Checkout.mk "b" ["v1.0.0", "v1.2.0", "v2.0.0", "garbage"]))).1
          = Outcome.ok x.Original ∧
      NewVersion x.Original = some x ∧
      ∀ t ∈ ["v1.0.0", "v1.2.0", "v2.0.0", "garbage"], ∀ y, NewVersion t = some y →
        x.Compare y ≤ 0 ∧ y.LessThan x = false :=
  ⟨by decide, by decide,
   latestSemVerTag_returns_lowest simpleRepo sortCollection
    (VCS.fresh (Checkout.mk "b" ["v1.0.0", "v1.2.0", "v2.0.0", "garbage"]))
    ["v1.0.0", "v1.2.0", "v2.0.0", "garbage"]
    sortCollection_perm sortCollection_ascending rfl ⟨"v1.0.0", by decide, by decide⟩⟩

/-- C19: the selection does not depend on the order of the tags.  For two
repositories whose tag lists are permutations of each other and have a tag
that parses, `latestSemVerTag` returns a tag for each, and the two tags parse
to versions of equal precedence. -/
theorem latestSemVerTag_order_independent {σ τ : Type} (env : Env σ) (env2 : Env τ)
    (sortFn : List Version → List Version) (v : VCS σ) (v2 : VCS τ)
    (tags tags2 : List String) (hp : SortsPerm sortFn) (ha : SortsAscending sortFn)
    (ht : (env.Tags v.Repo).1 = Except.ok tags)
    (ht2 : (env2.Tags v2.Repo).1 = Except.ok tags2)
    (hperm : tags.Perm tags2)
    (hsome : ∃ t ∈ tags, (NewVersion t).isSome = true) :
    ∃ s s2 x x2, (latestSemVerTag env sortFn v).1 = Outcome.ok s ∧
      (latestSemVerTag env2 sortFn v2).1 = Outcome.ok s2 ∧
      NewVersion s = some x ∧ NewVersion s2 = some x2 ∧ x.Compare x2 = 0 := by
  have hsome2 : ∃ t ∈ tags2, (NewVersion t).isSome = true := by
    obtain ⟨t, htmem, htsome⟩ := hsome
    exact ⟨t, hperm.mem_iff.mp htmem, htsome⟩
  obtain ⟨x, xs, hsorted, hsel, hmem, hparse⟩ :=
    latestSemVerTag_selects env sortFn v tags hp ht hsome
  obtain ⟨x2, xs2, hsorted2, hsel2, hmem2, hparse2⟩ :=
    latestSemVerTag_selects env2 sortFn v2 tags2 hp ht2 hsome2
  have h12 : x.Compare x2 ≤ 0 :=
    Compare_le_of_LessThan_eq_false x x2
      (head_not_preceded hp ha _ x xs hsorted x2
        (List.mem_filterMap.mpr ⟨x2.Original, hperm.mem_iff.mpr hmem2, hparse2⟩))
  have h21 : x2.Compare x ≤ 0 :=
    Compare_le_of_LessThan_eq_false x2 x
      (head_not_preceded hp ha _ x2 xs2 hsorted2 x
        (List.mem_filterMap.mpr ⟨x.Original, hperm.mem_iff.mp hmem, hparse⟩))
  have hswap := Compare_isPrecedence.swap x x2
  exact ⟨x.Original, x2.Original, x, x2, hsel, hsel2, hparse, hparse2, by omega⟩

/-- Witness of C19: the tags `1.0.0`, `v2.0.0`, `v1.0.0` in two orders; the
selected strings differ, `1.0.0` and `v1.0.0`, and tie in precedence. -/
theorem latestSemVerTag_order_independent_witness :
    (latestSemVerTag simpleRepo sortCollection
      (VCS.fresh (Checkout.mk "b" ["1.0.0", "v2.0.0", "v1.0.0"]))).1 = Outcome.ok "1.0.0" ∧
    (latestSemVerTag simpleRepo sortCollection
      (VCS.fresh (Checkout.mk "b" ["v1.0.0", "v2.0.0", "1.0.0"]))).1 = Outcome.ok "v1.0.0" ∧
    ∃ s s2 x x2,
      (latestSemVerTag simpleRepo sortCollection
        (VCS.fresh (Checkout.mk "b" ["1.0.0", "v2.0.0", "v1.0.0"]))).1 = Outcome.ok s ∧
      (latestSemVerTag simpleRepo sortCollection
        (VCS.fresh (Checkout.mk "b" ["v1.0.0", "v2.0.0", "1.0.0"]))).1 = Outcome.ok s2 ∧
      NewVersion s = some x ∧ NewVersion s2 = some x2 ∧ x.Compare x2 = 0 :=
  ⟨by decide, by decide,
   latestSemVerTag_order_independent simpleRepo simpleRepo sortCollection
    (VCS.fresh (Checkout.mk "b" ["1.0.0", "v2.0.0", "v1.0.0"]))
    (VCS.fresh (Checkout.mk "b" ["v1.0.0", "v2.0.0", "1.0.0"]))
    ["1.0.0", "v2.0.0", "v1.0.0"] ["v1.0.0", "v2.0.0", "1.0.0"]
    sortCollection_perm sortCollection_ascending rfl rfl (by decide)
    ⟨"1.0.0", by decide, by decide⟩⟩

end Apicompat
